import Mathlib

/-!
Verification of the heart-disease feature-engineering pipeline
(`src/dataproc_heart_analysis.py`).

The script is a PySpark batch job: it reads a CSV, casts the weight and
height columns to double, derives a BMI column and filters rows whose BMI
is null or NaN, encodes the textual outcome to a 0/1 label, drops raw
columns, fits a chain of StringIndexers (handleInvalid = skip), a
VectorAssembler (handleInvalid = skip) and a StandardScaler
(withStd = true, withMean = false), applies the fitted model, projects a
fixed column list and writes it to BigQuery.

The embedding below models one cell value as `Val`: SQL null, a string, or
an IEEE double represented exactly as NaN, a signed infinity, or a finite
value carried as a rational (rounding and finite-range overflow are not
modelled; the special values null/NaN/infinity follow Spark SQL semantics,
in particular division by zero yields null, not an error).  A `Record` is
an association list from column name to `Val`; a `Dataset` carries the
schema (column-name list) next to the rows.  Effectful collaborators (the
CSV read and the BigQuery write) are passed to the orchestrator as
`Except`-valued inputs; exceptions escaping a Python `try` block are the
`Except.error` branch of the orchestrator result.
-/

namespace HeartPipeline

/-- One cell value of a dataframe.  `null` is SQL NULL; `str` a string
cell; `nan`, `inf` and `num` together model an IEEE double (`inf true` is
+∞, `inf false` is −∞; finite doubles are carried exactly as rationals).
`vec` is a VectorAssembler output (its components are non-null finite
doubles because the assembler is run with handleInvalid = skip), and
`scaledVec xs vars` is the StandardScaler output column represented
symbolically as the raw components together with the fitted per-component
variances: its exact numeric value involves real square roots, which the
component-level facts below characterize via any rational square root of
the variance; the pipeline discards this column before the sink. -/
inductive Val where
  | null : Val
  | str (s : String) : Val
  | nan : Val
  | inf (pos : Bool) : Val
  | num (q : ℚ) : Val
  | vec (xs : List ℚ) : Val
  | scaledVec (xs : List ℚ) (vars : List ℚ) : Val
deriving DecidableEq

/-- A row: association list from column name to value (first binding
wins, mirroring a dataframe where column names are unique). -/
abbrev Record : Type := List (String × Val)

/-- Value of column `c` in record `r`; a column that is absent reads as
null (presence is governed by the `Dataset` schema). -/
def getV (r : Record) (c : String) : Val :=
  match r with
  | [] => Val.null
  | (k, v) :: t => if k = c then v else getV t c

/-- `withColumn` at row level: replace the first binding of `c`, or append
one if the column is new. -/
def setCol (r : Record) (c : String) (v : Val) : Record :=
  match r with
  | [] => [(c, v)]
  | (k, w) :: t => if k = c then (c, v) :: t else (k, w) :: setCol t c v

@[simp]
theorem getV_setCol_same (r : Record) (c : String) (v : Val) :
    getV (setCol r c v) c = v := by
  induction r with
  | nil => simp [setCol, getV]
  | cons kv t ih =>
    obtain ⟨k, w⟩ := kv
    by_cases h : k = c
    · simp [setCol, getV, h]
    · simp [setCol, getV, h, ih]

@[simp]
theorem getV_setCol_other (r : Record) (c c2 : String) (v : Val)
    (h : c ≠ c2) : getV (setCol r c v) c2 = getV r c2 := by
  induction r with
  | nil => simp [setCol, getV, h]
  | cons kv t ih =>
    obtain ⟨k, w⟩ := kv
    by_cases hk : k = c
    · subst hk
      simp [setCol, getV, h]
    · by_cases hk2 : k = c2
      · subst hk2
        simp [setCol, getV, hk, Ne.symm h, getV_setCol_same]
      · simp [setCol, getV, hk, hk2, ih]

/-- A dataframe: schema (ordered column names) plus rows. -/
structure Dataset where
  schema : List String
  rows : List Record
deriving DecidableEq

/-- Schema effect of `withColumn`: an existing column keeps its position,
a new one is appended on the right. -/
def schemaAdd (schema : List String) (c : String) : List String :=
  if schema.contains c then schema else schema ++ [c]

/-! ### Module-level configuration (lines 8–14 of the source) -/

/-- Default GCS input path (line 8). -/
def defaultGcsFilePath : String :=
  "gs://cardiopredict-bronzedata-12345/heart_2022_no_nans.csv"

/-- BigQuery output table (line 9). -/
def bigqueryOutputTable : String :=
  "cardio-predict-project.heart_analytics_dataset.processed_heart_data"

/-- CLI handling, lines 12–13: `if len(sys.argv) > 1: GCS_FILE_PATH =
sys.argv[1]`.  `argv` is the full `sys.argv` list, whose head is the
program name. -/
def resolveGcsPath (dflt : String) (argv : List String) : String :=
  if argv.length > 1 then argv.getD 1 dflt else dflt

/-! ### Column lists (lines 42–52, 55, 64–65, 78 of the source) -/

/-- The hard-coded categorical column list (lines 42–51). -/
def categoricalCols : List String :=
  ["Sex", "GeneralHealth", "LastCheckupTime", "PhysicalActivities", "RemovedTeeth",
   "HadAngina", "HadStroke", "HadAsthma", "HadSkinCancer", "HadCOPD",
   "HadDepressiveDisorder", "HadKidneyDisease", "HadArthritis", "HadDiabetes",
   "DeafOrHardOfHearing", "BlindOrVisionDifficulty", "DifficultyConcentrating",
   "DifficultyWalking", "DifficultyDressingBathing", "DifficultyErrands",
   "SmokerStatus", "ECigaretteUsage", "ChestScan", "RaceEthnicityCategory",
   "AgeCategory", "AlcoholDrinkers", "HIVTesting", "FluVaxLast12",
   "PneumoVaxEver", "TetanusLast10Tdap", "HighRiskLastYear", "CovidPos"]

/-- The numerical column list (line 52). -/
def numericalCols : List String :=
  ["PhysicalHealthDays", "MentalHealthDays", "SleepHours", "BMI_Calculated"]

/-- `indexed_cols` (line 65): one `_indexed` name per categorical column. -/
def indexedCols : List String := categoricalCols.map (fun c => c ++ "_indexed")

/-- `final_bq_cols` (line 78): label, then indexed categoricals, then the
raw numerical columns. -/
def finalBqCols : List String := "HadHeartAttack_Numeric" :: (indexedCols ++ numericalCols)

/-- Columns dropped at line 55. -/
def droppedRawCols : List String :=
  ["State", "HeightInMeters", "WeightInKilograms", "BMI", "HadHeartAttack"]

/-! ### Claim C9: fixed output column order -/

/-- C9 (confirmed).  The projected output column list is a fixed constant:
the numeric label first, then the 32 categorical index columns in the
exact order of the hard-coded categorical list, then the numerical columns
in the order PhysicalHealthDays, MentalHealthDays, SleepHours and the
derived BMI column last — so the derived feature is persisted among the
raw numerical columns. -/
theorem finalBqCols_fixed_order :
    finalBqCols =
      ["HadHeartAttack_Numeric",
       "Sex_indexed", "GeneralHealth_indexed", "LastCheckupTime_indexed",
       "PhysicalActivities_indexed", "RemovedTeeth_indexed",
       "HadAngina_indexed", "HadStroke_indexed", "HadAsthma_indexed",
       "HadSkinCancer_indexed", "HadCOPD_indexed",
       "HadDepressiveDisorder_indexed", "HadKidneyDisease_indexed",
       "HadArthritis_indexed", "HadDiabetes_indexed",
       "DeafOrHardOfHearing_indexed", "BlindOrVisionDifficulty_indexed",
       "DifficultyConcentrating_indexed", "DifficultyWalking_indexed",
       "DifficultyDressingBathing_indexed", "DifficultyErrands_indexed",
       "SmokerStatus_indexed", "ECigaretteUsage_indexed", "ChestScan_indexed",
       "RaceEthnicityCategory_indexed", "AgeCategory_indexed",
       "AlcoholDrinkers_indexed", "HIVTesting_indexed", "FluVaxLast12_indexed",
       "PneumoVaxEver_indexed", "TetanusLast10Tdap_indexed",
       "HighRiskLastYear_indexed", "CovidPos_indexed",
       "PhysicalHealthDays", "MentalHealthDays", "SleepHours", "BMI_Calculated"] ∧
    categoricalCols.length = 32 ∧
    finalBqCols.getLast? = some "BMI_Calculated" ∧
    "BMI_Calculated" ∈ numericalCols := by
  refine ⟨rfl, rfl, rfl, ?_⟩
  simp [numericalCols]

/-! ### Claim C10: CLI argument handling -/

/-- C10 (confirmed).  Only `sys.argv[1]` is ever consulted: with two or
more positional arguments the first one overrides the source path whatever
its content (no validation) and all later arguments are ignored; with no
positional argument the default is kept. -/
theorem resolveGcsPath_first_arg_only (dflt prog a : String) (rest : List String) :
    resolveGcsPath dflt (prog :: a :: rest) = a ∧
    resolveGcsPath dflt [prog] = dflt ∧
    resolveGcsPath dflt [] = dflt := by
  refine ⟨?_, rfl, rfl⟩
  simp [resolveGcsPath]

/-! ### Spark double semantics for the expressions at lines 31–36 -/

/-- `cast("double")` (lines 31–32): double-typed values (null, NaN, ±∞,
finite) pass through; any other payload becomes null instead of raising.
(The external reader infers a numeric type for these CSV columns, so the
string-parsing branch of Spark's cast is not exercised by the claims; a
non-numeric payload is conservatively sent to null, which is Spark's
behavior for an unparseable string.) -/
def castDouble : Val → Val
  | Val.null => Val.null
  | Val.nan => Val.nan
  | Val.inf b => Val.inf b
  | Val.num q => Val.num q
  | _ => Val.null

/-- True for the values a double column can hold. -/
def isDoubleV : Val → Bool
  | Val.null => true
  | Val.nan => true
  | Val.inf _ => true
  | Val.num _ => true
  | _ => false

theorem castDouble_isDoubleV (v : Val) : isDoubleV (castDouble v) = true := by
  cases v <;> rfl

/-- Spark's `**` on a double column against the literal 2 (`Math.pow(x, 2)`):
null propagates, NaN propagates, both infinities square to +∞, finite
values square exactly. -/
def sparkPow2 : Val → Val
  | Val.null => Val.null
  | Val.nan => Val.nan
  | Val.inf _ => Val.inf true
  | Val.num q => Val.num (q * q)
  | _ => Val.null

/-- Spark SQL division on doubles (non-ANSI `Divide`): null if either side
is null or the divisor compares equal to zero (Spark returns null on
division by zero, it does not produce ±∞ there); otherwise IEEE double
division: NaN if an operand is NaN or both are infinite, ±∞ for
infinite/finite, 0 for finite/infinite, and exact rational division for
finite/finite.  Non-double payloads are unreachable after the casts and
map to null. -/
def sparkDiv (a b : Val) : Val :=
  match b with
  | Val.null => Val.null
  | Val.nan =>
      (match a with
       | Val.null => Val.null
       | Val.nan => Val.nan
       | Val.inf _ => Val.nan
       | Val.num _ => Val.nan
       | _ => Val.null)
  | Val.inf _ =>
      (match a with
       | Val.null => Val.null
       | Val.nan => Val.nan
       | Val.inf _ => Val.nan
       | Val.num _ => Val.num 0
       | _ => Val.null)
  | Val.num q =>
      if q = 0 then Val.null
      else
        (match a with
         | Val.null => Val.null
         | Val.nan => Val.nan
         | Val.inf s => Val.inf (s == decide (0 < q.num))
         | Val.num p => Val.num (p / q)
         | _ => Val.null)
  | _ => Val.null

/-! ### Feature Deriver (lines 35–36) -/

/-- The BMI expression of line 35 evaluated on one record. -/
def bmiExpr (r : Record) : Val :=
  sparkDiv (getV r "WeightInKilograms") (sparkPow2 (getV r "HeightInMeters"))

/-- `withColumn("BMI_Calculated", ...)` at row level (line 35). -/
def deriveRow (r : Record) : Record := setCol r "BMI_Calculated" (bmiExpr r)

/-- The filter predicate of line 36:
`BMI_Calculated.isNotNull & ~isnan(BMI_Calculated)`.  (`isnan` of null is
false, but null is already excluded by the first conjunct.) -/
def bmiValid : Val → Bool
  | Val.null => false
  | Val.nan => false
  | _ => true

/-- Lines 35–36 over the row list: add the BMI column, then keep rows
whose BMI is neither null nor NaN. -/
def featureDeriveStage (rows : List Record) : List Record :=
  (rows.map deriveRow).filter (fun r => bmiValid (getV r "BMI_Calculated"))

theorem bmiValid_sparkDiv_num (a : Val) (q : ℚ) (ha : isDoubleV a = true) :
    bmiValid (sparkDiv a (Val.num q)) = false ↔ (q = 0 ∨ a = Val.null ∨ a = Val.nan) := by
  by_cases hq : q = 0
  · cases a <;> simp_all [sparkDiv, bmiValid, isDoubleV, hq]
  · cases a <;> simp_all [sparkDiv, bmiValid, isDoubleV, hq]

unseal Rat.mul Rat.inv Rat.add Rat.sub in
/-- C1 counterexample.  The claim says a record whose computed BMI is not
a finite number is excluded, but the filter only removes null and NaN: a
record whose weight operand is +∞ (with finite non-zero height) gets BMI
+∞ and survives the Feature Deriver, carrying a non-finite derived value. -/
theorem featureDeriver_keeps_infinite_bmi :
    featureDeriveStage [[("WeightInKilograms", Val.inf true), ("HeightInMeters", Val.num 1)]] =
      [[("WeightInKilograms", Val.inf true), ("HeightInMeters", Val.num 1),
        ("BMI_Calculated", Val.inf true)]] := by
  decide

/-- C1 (amended).  Over double-typed operands (which is all the cast at
lines 31–32 can produce, see `castDouble_isDoubleV`), a record is excluded
by the Feature Deriver exactly when its BMI evaluates to null or NaN: that
is, when the weight or height operand is null, the height is zero, an
operand is NaN, or both operands are infinite.  A surviving record with
finite operands carries exactly weight / height², and the stage is the
filter of line 36 applied after the projection of line 35.  (An infinite
result — infinite weight over finite non-zero height — is NOT excluded,
which is the one divergence from the claim as stated.) -/
theorem featureDeriver_excludes_null_or_nan_bmi (wv hv : Val)
    (hw : isDoubleV wv = true) (hh : isDoubleV hv = true) :
    (bmiValid (sparkDiv wv (sparkPow2 hv)) = false ↔
      (wv = Val.null ∨ hv = Val.null ∨ hv = Val.num 0 ∨ wv = Val.nan ∨ hv = Val.nan ∨
       ((∃ b, wv = Val.inf b) ∧ ∃ b, hv = Val.inf b))) ∧
    (∀ qw qh : ℚ, wv = Val.num qw → hv = Val.num qh → qh ≠ 0 →
      sparkDiv wv (sparkPow2 hv) = Val.num (qw / (qh * qh))) ∧
    (∀ r : Record, getV (deriveRow r) "BMI_Calculated" = bmiExpr r) ∧
    (∀ rows : List Record, featureDeriveStage rows =
      (rows.map deriveRow).filter (fun r => bmiValid (getV r "BMI_Calculated"))) := by
  refine ⟨?_, ?_, ?_, fun rows => rfl⟩
  · cases hv with
    | null => cases wv <;> simp [sparkPow2, sparkDiv, bmiValid]
    | nan => cases wv <;> simp_all [isDoubleV, sparkPow2, sparkDiv, bmiValid]
    | inf bh => cases wv <;> simp_all [isDoubleV, sparkPow2, sparkDiv, bmiValid]
    | num qh =>
        have hlem := bmiValid_sparkDiv_num wv (qh * qh) hw
        have hp : sparkPow2 (Val.num qh) = Val.num (qh * qh) := rfl
        rw [hp, hlem]
        simp [mul_self_eq_zero]
        tauto
    | str s => simp_all [isDoubleV]
    | vec xs => simp_all [isDoubleV]
    | scaledVec xs vs => simp_all [isDoubleV]
  · intro qw qh hqw hqh hne
    subst hqw; subst hqh
    have : qh * qh ≠ 0 := mul_ne_zero hne hne
    simp [sparkDiv, sparkPow2, this]
  · intro r
    simp [deriveRow, getV_setCol_same]

/-- Witness for `featureDeriver_excludes_null_or_nan_bmi` at weight 80,
height 2. -/
theorem featureDeriver_excludes_null_or_nan_bmi_witness :
    sparkDiv (Val.num 80) (sparkPow2 (Val.num 2)) = Val.num (80 / (2 * 2)) :=
  (featureDeriver_excludes_null_or_nan_bmi (Val.num 80) (Val.num 2)
    (by decide) (by decide)).2.1 80 2 rfl rfl (by decide)

/-! ### Label Encoder (lines 39 and 55) -/

/-- Line 39: `F.when(F.col("HadHeartAttack") == "Yes", 1).otherwise(0)`.
Spark's equality against a literal is null on a null input, and `when`
sends a null condition to the `otherwise` branch, so every value other
than the exact string "Yes" (including null) maps to 0. -/
def labelOf (v : Val) : Val :=
  if v = Val.str "Yes" then Val.num 1 else Val.num 0

/-- `withColumn("HadHeartAttack_Numeric", ...)` at row level. -/
def labelRow (r : Record) : Record :=
  setCol r "HadHeartAttack_Numeric" (labelOf (getV r "HadHeartAttack"))

/-- C6 (confirmed).  The appended numeric label is 1 exactly on the
case-sensitive literal "Yes" and 0 on every other value (null, "No", the
empty string, anything else), and the raw textual outcome column is both
dropped at line 55 and absent from the final projected column list. -/
theorem labelEncoder_contract :
    (∀ v : Val, labelOf v = Val.num 1 ↔ v = Val.str "Yes") ∧
    (∀ v : Val, v ≠ Val.str "Yes" → labelOf v = Val.num 0) ∧
    labelOf Val.null = Val.num 0 ∧
    labelOf (Val.str "No") = Val.num 0 ∧
    labelOf (Val.str "") = Val.num 0 ∧
    (∀ r : Record, getV (labelRow r) "HadHeartAttack_Numeric" =
      labelOf (getV r "HadHeartAttack")) ∧
    "HadHeartAttack" ∈ droppedRawCols ∧
    "HadHeartAttack" ∉ finalBqCols := by
  refine ⟨?_, ?_, rfl, rfl, rfl, ?_, by decide, by decide⟩
  · intro v
    constructor
    · intro h
      by_contra hne
      simp [labelOf, hne] at h
    · intro h
      simp [labelOf, h]
  · intro v h
    simp [labelOf, h]
  · intro r
    simp [labelRow, getV_setCol_same]

/-- Witness for `labelEncoder_contract` at an arbitrary non-"Yes" value. -/
theorem labelEncoder_contract_witness : labelOf (Val.str "Maybe") = Val.num 0 :=
  labelEncoder_contract.2.1 (Val.str "Maybe") (by decide)

/-! ### Numerical Scaler (lines 68–69)

`StandardScaler(withStd=True, withMean=False)` fits the per-component
sample standard deviation of the assembled vector and, at transform time,
multiplies each component by `1.0 / std` when `std ≠ 0` and by `0.0` when
`std == 0` (Spark's divide-by-zero guard zeroes the component, it does not
divide by one).  The standard deviation is the real square root of the
sample variance; the variance is rational-computable and a component's
scaling behavior is characterized below through any rational `s` with
`s * s = variance`, which pins `s = 0` exactly in the degenerate case the
claim is about. -/

/-- Mean of a rational list (0 for the empty list, via division by zero). -/
def listMean (l : List ℚ) : ℚ := l.sum / l.length

/-- Sample variance (divisor `n − 1`, as in Spark's Summarizer; 0 when
fewer than two observations). -/
def sampleVariance (l : List ℚ) : ℚ :=
  if l.length ≤ 1 then 0
  else ((l.map (fun x => (x - listMean l) * (x - listMean l))).sum) / ((l.length : ℚ) - 1)

/-- The transform-time factor of Spark's StandardScalerModel for one
component: `if (std == 0) 0.0 else 1.0 / std`. -/
def scaleFactor (s : ℚ) : ℚ := if s = 0 then 0 else 1 / s

/-- One scaled component with centering disabled: `value * factor`. -/
def scaledEntry (s x : ℚ) : ℚ := scaleFactor s * x

theorem sampleVariance_replicate (n : ℕ) (q : ℚ) :
    sampleVariance (List.replicate n q) = 0 := by
  unfold sampleVariance
  split
  · rfl
  · rename_i h
    have hn : (n : ℚ) ≠ 0 := by
      have h1 : 1 < (List.replicate n q).length := Nat.lt_of_not_le h
      rw [List.length_replicate] at h1
      exact Nat.cast_ne_zero.mpr (by omega)
    have hmean : listMean (List.replicate n q) = q := by
      rw [listMean, List.sum_replicate, List.length_replicate, nsmul_eq_mul]
      exact mul_div_cancel_left₀ q hn
    rw [hmean, List.map_replicate]
    simp

unseal Rat.mul Rat.inv Rat.add Rat.sub in
/-- C3 counterexample.  Fitting on a column that is constantly 5.0 over
three rows gives sample variance 0, hence standard deviation 0; applying
the fitted scaler (centering disabled) multiplies the component by the
zero fallback factor and returns 0.0 — defined and finite, but not the
unchanged 5.0 the claim promises. -/
theorem scaler_constant_column_returns_zero :
    sampleVariance [5, 5, 5] = 0 ∧ scaledEntry 0 5 = 0 ∧ scaledEntry 0 5 ≠ 5 := by
  decide

/-- C3 (amended).  Fitting the scaler on a column with constant value 5.0
(any number of rows) yields sample variance 0, so the standard deviation —
any rational `s` with `s * s = variance` — is 0, and applying the scaler
with centering disabled is the zero-fallback multiply: the component
becomes 0.0.  The behavior is defined and never infinite or undefined
(the `std == 0` guard prevents division by zero), but it is a
multiply-by-zero fallback, not a divide-by-one no-op: the constant 5.0 is
returned as 0.0, not unchanged. -/
theorem scaler_zero_variance_fallback (n : ℕ) (s : ℚ)
    (hs : s * s = sampleVariance (List.replicate n 5)) :
    s = 0 ∧ scaledEntry s 5 = 0 := by
  rw [sampleVariance_replicate n 5] at hs
  have hz : s = 0 := mul_self_eq_zero.mp hs
  subst hz
  refine ⟨rfl, ?_⟩
  simp [scaledEntry, scaleFactor]

/-- Witness for `scaler_zero_variance_fallback` on a 2-row column. -/
theorem scaler_zero_variance_fallback_witness :
    (0 : ℚ) = 0 ∧ scaledEntry 0 5 = 0 :=
  scaler_zero_variance_fallback 2 0 (by rw [sampleVariance_replicate 2 5, mul_zero])

/-! ### Final projection (lines 78–79) -/

instance {ε α : Type} [DecidableEq ε] [DecidableEq α] : DecidableEq (Except ε α) := fun x y =>
  match x, y with
  | Except.ok a, Except.ok b =>
      if h : a = b then isTrue (by rw [h])
      else isFalse (by intro hh; cases hh; exact h rfl)
  | Except.error e, Except.error f =>
      if h : e = f then isTrue (by rw [h])
      else isFalse (by intro hh; cases hh; exact h rfl)
  | Except.ok _, Except.error _ => isFalse (by intro hh; cases hh)
  | Except.error _, Except.ok _ => isFalse (by intro hh; cases hh)

/-- `df.select(*cols)` on a dataset: an analysis error if a requested
column is missing, otherwise exactly the requested columns in the
requested order. -/
def selectCols (d : Dataset) (cols : List String) : Except String Dataset :=
  if cols.all (fun c => d.schema.contains c)
  then Except.ok ⟨cols, d.rows.map (fun r => cols.map (fun c => (c, getV r c)))⟩
  else Except.error "select: column not found"

/-- C2 (confirmed).  The projected column list is exactly the numeric
label column, one `_indexed` column per categorical input column, and the
raw numerical columns; it contains neither the raw textual outcome, nor
the raw height/weight columns, nor any original categorical text column,
nor the assembled or scaled vector columns; and whenever the final
`select` succeeds, the dataset handed to the sink carries exactly this
schema. -/
theorem final_projection_schema :
    finalBqCols =
      "HadHeartAttack_Numeric" ::
        (categoricalCols.map (fun c => c ++ "_indexed") ++ numericalCols) ∧
    "HadHeartAttack" ∉ finalBqCols ∧
    "HeightInMeters" ∉ finalBqCols ∧
    "WeightInKilograms" ∉ finalBqCols ∧
    (∀ c ∈ categoricalCols, c ∉ finalBqCols) ∧
    "num_features_unscaled" ∉ finalBqCols ∧
    "num_features_scaled" ∉ finalBqCols ∧
    (∀ d out, selectCols d finalBqCols = Except.ok out → out.schema = finalBqCols) := by
  refine ⟨rfl, by decide, by decide, by decide, by decide, by decide, by decide, ?_⟩
  intro d out h
  unfold selectCols at h
  split at h
  · cases h
    rfl
  · exact Except.noConfusion h

/-- Witness for `final_projection_schema`: a concrete successful select. -/
theorem final_projection_schema_witness :
    (Dataset.mk finalBqCols []).schema = finalBqCols :=
  final_projection_schema.2.2.2.2.2.2.2 ⟨finalBqCols, []⟩ ⟨finalBqCols, []⟩ (by decide)

/-! ### Categorical Encoder fit (line 64)

`StringIndexer(inputCol=c, outputCol=c + "_indexed", handleInvalid="skip")`
with the default `stringOrderType = "frequencyDesc"`: the fitted labels are
the distinct non-null strings of the column ordered by descending
frequency, and — per Spark's documented behavior for `frequencyDesc` —
strings of equal frequency are further sorted alphabetically (ascending);
a value's index is its position in that label list.  The indexer is
external library code configured at line 64; its fit semantics are
embedded here from Spark's documented default ordering. -/

/-- Lexicographic strict comparison of char lists by code point (the
order Spark uses to break frequency ties between labels). -/
def strLtList : List Char → List Char → Bool
  | [], [] => false
  | [], _ :: _ => true
  | _ :: _, [] => false
  | a :: as, b :: bs =>
    if a.val.toNat < b.val.toNat then true
    else if b.val.toNat < a.val.toNat then false
    else strLtList as bs

/-- Non-strict lexicographic order on strings. -/
def strLeB (a b : String) : Bool := !(strLtList b.data a.data)

theorem strLtList_irrefl (l : List Char) : strLtList l l = false := by
  induction l with
  | nil => rfl
  | cons a t ih => simp [strLtList, ih]

theorem strLtList_trans :
    ∀ x y z : List Char, strLtList x y = true → strLtList y z = true →
      strLtList x z = true := by
  intro x
  induction x with
  | nil =>
    intro y z hxy hyz
    cases y with
    | nil => simp [strLtList] at hxy
    | cons b bs =>
      cases z with
      | nil => simp [strLtList] at hyz
      | cons c cs => simp [strLtList]
  | cons a as ih =>
    intro y z hxy hyz
    cases y with
    | nil => simp [strLtList] at hxy
    | cons b bs =>
      cases z with
      | nil => simp [strLtList] at hyz
      | cons c cs =>
        rw [strLtList] at hxy hyz ⊢
        by_cases h1 : a.val.toNat < b.val.toNat <;>
          by_cases h2 : b.val.toNat < c.val.toNat
        · rw [if_pos (Nat.lt_trans h1 h2)]
        · rw [if_neg h2] at hyz
          by_cases h3 : c.val.toNat < b.val.toNat
          · rw [if_pos h3] at hyz
            exact Bool.noConfusion hyz
          · rw [if_neg h3] at hyz
            have hbc : b.val.toNat = c.val.toNat := by omega
            rw [if_pos (hbc ▸ h1)]
        · rw [if_neg h1] at hxy
          by_cases h3 : b.val.toNat < a.val.toNat
          · rw [if_pos h3] at hxy
            exact Bool.noConfusion hxy
          · rw [if_neg h3] at hxy
            have hab : a.val.toNat = b.val.toNat := by omega
            rw [if_pos (hab.symm ▸ h2)]
        · rw [if_neg h1] at hxy
          by_cases h3 : b.val.toNat < a.val.toNat
          · rw [if_pos h3] at hxy
            exact Bool.noConfusion hxy
          · rw [if_neg h3] at hxy
            rw [if_neg h2] at hyz
            by_cases h4 : c.val.toNat < b.val.toNat
            · rw [if_pos h4] at hyz
              exact Bool.noConfusion hyz
            · rw [if_neg h4] at hyz
              have hab : a.val.toNat = b.val.toNat := by omega
              have hbc : b.val.toNat = c.val.toNat := by omega
              rw [if_neg (by omega : ¬ a.val.toNat < c.val.toNat),
                if_neg (by omega : ¬ c.val.toNat < a.val.toNat)]
              exact ih bs cs hxy hyz

theorem strLtList_trichotomy :
    ∀ x y : List Char, strLtList x y = true ∨ strLtList y x = true ∨ x = y := by
  intro x
  induction x with
  | nil =>
    intro y
    cases y with
    | nil => exact Or.inr (Or.inr rfl)
    | cons b bs => exact Or.inl rfl
  | cons a as ih =>
    intro y
    cases y with
    | nil => exact Or.inr (Or.inl rfl)
    | cons b bs =>
      rcases Nat.lt_trichotomy a.val.toNat b.val.toNat with h | h | h
      · left
        rw [strLtList, if_pos h]
      · have hab : a = b := Char.ext (UInt32.toNat.inj h)
        subst hab
        rcases ih bs with h1 | h1 | h1
        · left
          rw [strLtList, if_neg (Nat.lt_irrefl _), if_neg (Nat.lt_irrefl _)]
          exact h1
        · right; left
          rw [strLtList, if_neg (Nat.lt_irrefl _), if_neg (Nat.lt_irrefl _)]
          exact h1
        · right; right
          rw [h1]
      · right; left
        rw [strLtList, if_pos h]

theorem strLtList_asymm (x y : List Char) (h : strLtList x y = true) :
    strLtList y x = false := by
  by_contra hc
  have h2 : strLtList y x = true := by
    cases hyx : strLtList y x
    · exact absurd hyx hc
    · rfl
  have h3 := strLtList_trans x y x h h2
  rw [strLtList_irrefl] at h3
  exact Bool.noConfusion h3

theorem strLeB_trans (a b c : String)
    (h1 : strLeB a b = true) (h2 : strLeB b c = true) : strLeB a c = true := by
  rw [strLeB, Bool.not_eq_true'] at h1 h2 ⊢
  by_contra hc
  have h3 : strLtList c.data a.data = true := by
    cases h : strLtList c.data a.data
    · exact absurd h hc
    · rfl
  rcases strLtList_trichotomy b.data c.data with hbc | hbc | hbc
  · have h4 := strLtList_trans b.data c.data a.data hbc h3
    rw [h1] at h4
    exact Bool.noConfusion h4
  · rw [hbc] at h2
    exact Bool.noConfusion h2
  · rw [← hbc] at h3
    rw [h1] at h3
    exact Bool.noConfusion h3

theorem strLeB_total (a b : String) : (strLeB a b || strLeB b a) = true := by
  by_cases h : strLtList b.data a.data = true
  · have h2 := strLtList_asymm _ _ h
    simp [strLeB, h2]
  · have h2 : strLtList b.data a.data = false := by
      cases hh : strLtList b.data a.data
      · rfl
      · exact absurd hh h
    simp [strLeB, h2]

/-- The non-null string values observed in column `c` (a row with null —
or any non-string value — in `c` contributes nothing). -/
def columnStrings (rows : List Record) (c : String) : List String :=
  rows.filterMap (fun r =>
    match getV r c with
    | Val.str s => some s
    | _ => none)

/-- The distinct values of a list in first-seen order. -/
def firstSeenDistinct (l : List String) : List String :=
  l.foldl (fun acc x => if x ∈ acc then acc else acc ++ [x]) []

theorem mem_foldl_firstSeen (l : List String) (acc : List String) (x : String) :
    x ∈ l.foldl (fun a y => if y ∈ a then a else a ++ [y]) acc ↔ x ∈ acc ∨ x ∈ l := by
  induction l generalizing acc with
  | nil => simp
  | cons y t ih =>
    simp only [List.foldl_cons]
    by_cases hy : y ∈ acc
    · rw [if_pos hy, ih]
      simp only [List.mem_cons]
      constructor
      · rintro (h | h)
        · exact Or.inl h
        · exact Or.inr (Or.inr h)
      · rintro (h | h | h)
        · exact Or.inl h
        · subst h
          exact Or.inl hy
        · exact Or.inr h
    · rw [if_neg hy, ih]
      simp only [List.mem_append, List.mem_singleton, List.mem_cons]
      tauto

theorem nodup_foldl_firstSeen (l : List String) (acc : List String) (h : acc.Nodup) :
    (l.foldl (fun a y => if y ∈ a then a else a ++ [y]) acc).Nodup := by
  induction l generalizing acc with
  | nil => simpa
  | cons y t ih =>
    simp only [List.foldl_cons]
    by_cases hy : y ∈ acc
    · rw [if_pos hy]
      exact ih acc h
    · rw [if_neg hy]
      refine ih _ ?_
      simp [List.nodup_append, h, hy]

theorem mem_firstSeenDistinct (l : List String) (x : String) :
    x ∈ firstSeenDistinct l ↔ x ∈ l := by
  rw [firstSeenDistinct, mem_foldl_firstSeen]
  simp

theorem nodup_firstSeenDistinct (l : List String) : (firstSeenDistinct l).Nodup :=
  nodup_foldl_firstSeen l [] List.nodup_nil

/-- The fitted label order of Spark's StringIndexer under frequencyDesc:
higher count first, frequency ties broken by ascending string order. -/
def freqLe (vs : List String) (a b : String) : Bool :=
  decide (vs.count b < vs.count a) || (decide (vs.count a = vs.count b) && strLeB a b)

theorem freqLe_trans (vs : List String) :
    ∀ a b c, freqLe vs a b → freqLe vs b c → freqLe vs a c := by
  intro a b c h1 h2
  simp only [freqLe, Bool.or_eq_true, Bool.and_eq_true, decide_eq_true_eq] at h1 h2 ⊢
  rcases h1 with h1 | ⟨h1a, h1b⟩ <;> rcases h2 with h2 | ⟨h2a, h2b⟩
  · exact Or.inl (Nat.lt_trans h2 h1)
  · exact Or.inl (h2a ▸ h1)
  · exact Or.inl (by omega)
  · exact Or.inr ⟨by omega, strLeB_trans a b c h1b h2b⟩

theorem freqLe_total (vs : List String) :
    ∀ a b, (freqLe vs a b || freqLe vs b a) = true := by
  intro a b
  simp only [freqLe, Bool.or_eq_true, Bool.and_eq_true, decide_eq_true_eq]
  rcases Nat.lt_trichotomy (vs.count a) (vs.count b) with h | h | h
  · exact Or.inr (Or.inl h)
  · have ht := strLeB_total a b
    rw [Bool.or_eq_true] at ht
    rcases ht with hl | hl
    · exact Or.inl (Or.inr ⟨h, hl⟩)
    · exact Or.inr (Or.inr ⟨h.symm, hl⟩)
  · exact Or.inl (Or.inl h)

/-- StringIndexer fit on one column: distinct non-null observed strings,
sorted by descending frequency with alphabetical tie-break; a value's
index is its position in this list. -/
def indexerFit (rows : List Record) (c : String) : List String :=
  (firstSeenDistinct (columnStrings rows c)).mergeSort (freqLe (columnStrings rows c))

/-- The vocabulary order the claim asserts, written from the spec's words
for comparison: descending frequency with ties broken by first-seen order
(a stable sort of the first-seen distinct list by frequency alone). -/
def specVocabFirstSeen (rows : List Record) (c : String) : List String :=
  (firstSeenDistinct (columnStrings rows c)).mergeSort
    (fun a b => decide ((columnStrings rows c).count b ≤ (columnStrings rows c).count a))

unseal List.merge List.mergeSort in
/-- C4 counterexample.  On a column containing "b" then "a", once each
(a frequency tie), the fitted vocabulary is ["a", "b"] — alphabetical
tie-break, "a" gets index 0 — whereas the claimed first-seen tie-break
would put the earlier-seen "b" at index 0. -/
theorem categorical_vocab_tie_not_first_seen :
    indexerFit [[("Sex", Val.str "b")], [("Sex", Val.str "a")]] "Sex" = ["a", "b"] ∧
    specVocabFirstSeen [[("Sex", Val.str "b")], [("Sex", Val.str "a")]] "Sex" = ["b", "a"] ∧
    indexerFit [[("Sex", Val.str "b")], [("Sex", Val.str "a")]] "Sex" ≠
      specVocabFirstSeen [[("Sex", Val.str "b")], [("Sex", Val.str "a")]] "Sex" := by
  decide

/-- C4 (amended).  For every categorical column, fit assigns each distinct
observed non-null string value a dense non-negative integer index (its
position in a duplicate-free label list that contains exactly the observed
non-null strings), ordered by descending frequency — but with frequency
ties broken by ascending alphabetical order of the value, not by
first-seen order in the dataset.  Records with null (or non-string) values
in the column contribute no vocabulary entry. -/
theorem categorical_vocab_contract (rows : List Record) (c : String) :
    (indexerFit rows c).Nodup ∧
    (∀ s, s ∈ indexerFit rows c ↔ s ∈ columnStrings rows c) ∧
    (indexerFit rows c).Pairwise
      (fun a b => freqLe (columnStrings rows c) a b = true) := by
  refine ⟨?_, ?_, ?_⟩
  · exact (List.mergeSort_perm _ _).nodup_iff.mpr (nodup_firstSeenDistinct _)
  · intro s
    rw [indexerFit, List.mem_mergeSort, mem_firstSeenDistinct]
  · have h := List.sorted_mergeSort (freqLe_trans (columnStrings rows c))
      (freqLe_total (columnStrings rows c))
      (firstSeenDistinct (columnStrings rows c))
    simpa [indexerFit] using h

/-! ### Categorical Encoder apply (lines 64 and 72–74)

Each fitted StringIndexer model transforms the dataset in sequence (they
are chained as pipeline stages); with `handleInvalid = "skip"` a row whose
value in the stage's column is null or not in the stage's label list is
filtered out, and a surviving row gains the `_indexed` column holding the
label's index as a double. -/

/-- One StringIndexer model applied to one row: the new `_indexed` column
on success, `none` (row dropped) when the value is null, non-string, or
absent from the fitted labels. -/
def indexRow (c : String) (vocab : List String) (r : Record) : Option Record :=
  match getV r c with
  | Val.str s =>
      match vocab.findIdx? (fun x => x == s) with
      | some i => some (setCol r (c ++ "_indexed") (Val.num i))
      | none => none
  | _ => none

/-- One StringIndexer model applied to the row list (skip-invalid). -/
def indexerApply (c : String) (vocab : List String) (rows : List Record) : List Record :=
  rows.filterMap (indexRow c vocab)

/-- The chained application of all fitted indexer models, in order. -/
def applyModels : List (String × List String) → List Record → List Record
  | [], rows => rows
  | (c, v) :: ms, rows => applyModels ms (indexerApply c v rows)

/-- A row has a known (fitted) string value in every target column. -/
def knownAll (models : List (String × List String)) (r : Record) : Bool :=
  models.all (fun m =>
    match getV r m.1 with
    | Val.str s => (m.2.findIdx? (fun x => x == s)).isSome
    | _ => false)

/-- The row extended with every `_indexed` column it gains across the
stages (stages whose value is unknown leave the row unchanged). -/
def extendRow : List (String × List String) → Record → Record
  | [], r => r
  | (c, v) :: ms, r =>
      match getV r c with
      | Val.str s =>
          match v.findIdx? (fun x => x == s) with
          | some i => extendRow ms (setCol r (c ++ "_indexed") (Val.num i))
          | none => extendRow ms r
      | _ => extendRow ms r

/-- Per-record description of the whole chain: kept (with all indexed
columns) exactly when every target column's value is known. -/
def encodeRow (models : List (String × List String)) (r : Record) : Option Record :=
  if knownAll models r then some (extendRow models r) else none

theorem knownAll_cons (c : String) (v : List String)
    (ms : List (String × List String)) (r : Record) :
    knownAll ((c, v) :: ms) r =
      ((match getV r c with
        | Val.str s => (v.findIdx? (fun x => x == s)).isSome
        | _ => false) && knownAll ms r) := rfl

theorem knownAll_congr (models : List (String × List String)) (r1 r2 : Record)
    (h : ∀ m ∈ models, getV r1 m.1 = getV r2 m.1) :
    knownAll models r1 = knownAll models r2 := by
  induction models with
  | nil => rfl
  | cons m ms ih =>
    have hh := h m (List.mem_cons_self m ms)
    have ht := ih (fun m2 hm2 => h m2 (List.mem_cons_of_mem m hm2))
    simp only [knownAll, List.all_cons] at ht ⊢
    rw [hh, ht]

theorem getV_extendRow_of_ne :
    ∀ (models : List (String × List String)) (r : Record) (k : String),
    (∀ m ∈ models, m.1 ++ "_indexed" ≠ k) →
    getV (extendRow models r) k = getV r k := by
  intro models
  induction models with
  | nil => intro r k _; rfl
  | cons m ms ih =>
    intro r k h
    obtain ⟨c, v⟩ := m
    have hhead : c ++ "_indexed" ≠ k := h (c, v) (List.mem_cons_self _ _)
    have htail : ∀ m2 ∈ ms, m2.1 ++ "_indexed" ≠ k :=
      fun m2 hm2 => h m2 (List.mem_cons_of_mem _ hm2)
    cases hg : getV r c with
    | str s =>
      cases hfi : v.findIdx? (fun x => x == s) with
      | some i =>
        simp only [extendRow, hg, hfi]
        rw [ih _ _ htail, getV_setCol_other _ _ _ _ hhead]
      | none =>
        simp only [extendRow, hg, hfi]
        exact ih _ _ htail
    | null => simp only [extendRow, hg]; exact ih _ _ htail
    | nan => simp only [extendRow, hg]; exact ih _ _ htail
    | inf b => simp only [extendRow, hg]; exact ih _ _ htail
    | num q => simp only [extendRow, hg]; exact ih _ _ htail
    | vec xs => simp only [extendRow, hg]; exact ih _ _ htail
    | scaledVec xs vs => simp only [extendRow, hg]; exact ih _ _ htail

theorem applyModels_eq_filterMap :
    ∀ (models : List (String × List String)) (rows : List Record),
    (∀ m ∈ models, ∀ m2 ∈ models, m.1 ++ "_indexed" ≠ m2.1) →
    applyModels models rows = rows.filterMap (encodeRow models) := by
  intro models
  induction models with
  | nil =>
    intro rows _
    have hsome : encodeRow ([] : List (String × List String)) = some := by
      funext r
      simp [encodeRow, knownAll, extendRow]
    rw [applyModels, hsome, List.filterMap_some]
  | cons m ms ih =>
    intro rows hA
    obtain ⟨c, v⟩ := m
    have hA2 : ∀ m2 ∈ ms, ∀ m3 ∈ ms, m2.1 ++ "_indexed" ≠ m3.1 :=
      fun m2 h2 m3 h3 =>
        hA m2 (List.mem_cons_of_mem _ h2) m3 (List.mem_cons_of_mem _ h3)
    rw [applyModels, indexerApply, ih _ hA2, List.filterMap_filterMap]
    refine congrArg (fun f => rows.filterMap f) (funext fun r => ?_)
    cases hg : getV r c with
    | str s =>
      cases hfi : v.findIdx? (fun x => x == s) with
      | some i =>
        have hkeys : ∀ m2 ∈ ms,
            getV (setCol r (c ++ "_indexed") (Val.num i)) m2.1 = getV r m2.1 :=
          fun m2 hm2 =>
            getV_setCol_other _ _ _ _
              (hA (c, v) (List.mem_cons_self _ _) m2 (List.mem_cons_of_mem _ hm2))
        have hknown := knownAll_congr ms _ r hkeys
        simp only [indexRow, hg, hfi, Option.some_bind, encodeRow, knownAll_cons,
          Option.isSome_some, Bool.true_and, extendRow]
        rw [hknown]
      | none =>
        simp [indexRow, hg, hfi, encodeRow, knownAll_cons]
    | null => simp [indexRow, hg, encodeRow, knownAll_cons]
    | nan => simp [indexRow, hg, encodeRow, knownAll_cons]
    | inf b => simp [indexRow, hg, encodeRow, knownAll_cons]
    | num q => simp [indexRow, hg, encodeRow, knownAll_cons]
    | vec xs => simp [indexRow, hg, encodeRow, knownAll_cons]
    | scaledVec xs vs => simp [indexRow, hg, encodeRow, knownAll_cons]

theorem findIdx_isSome_iff_mem (vocab : List String) (s : String) :
    ((vocab.findIdx? (fun x => x == s)).isSome = true) ↔ s ∈ vocab := by
  induction vocab with
  | nil => simp
  | cons a t ih =>
    by_cases h : a = s
    · subst h
      simp
    · simp [List.findIdx?_cons, h, List.findIdx?_succ, Option.isSome_map, ih,
        List.mem_cons, Ne.symm h]

theorem extendRow_correct :
    ∀ (models : List (String × List String)) (r : Record),
    ((models.map (fun m => m.1 ++ "_indexed")).Nodup) →
    (∀ m ∈ models, ∀ m2 ∈ models, m.1 ++ "_indexed" ≠ m2.1) →
    knownAll models r = true →
    ∀ m ∈ models, ∃ s i,
      getV r m.1 = Val.str s ∧
      m.2.findIdx? (fun x => x == s) = some i ∧
      getV (extendRow models r) (m.1 ++ "_indexed") = Val.num i := by
  intro models
  induction models with
  | nil =>
    intro r _ _ _ m hm
    cases hm
  | cons hd ms ih =>
    intro r hB hA hK m hm
    obtain ⟨c, v⟩ := hd
    simp only [knownAll_cons, Bool.and_eq_true] at hK
    obtain ⟨hK1, hK2⟩ := hK
    cases hg : getV r c with
    | str s =>
      simp only [hg] at hK1
      cases hfi : v.findIdx? (fun x => x == s) with
      | none =>
        rw [hfi] at hK1
        exact Bool.noConfusion hK1
      | some i =>
        have hstep : extendRow ((c, v) :: ms) r =
            extendRow ms (setCol r (c ++ "_indexed") (Val.num i)) := by
          simp only [extendRow, hg, hfi]
        rcases List.mem_cons.mp hm with hmh | hmt
        · subst hmh
          refine ⟨s, i, hg, hfi, ?_⟩
          rw [hstep]
          have hnot : ∀ m2 ∈ ms, m2.1 ++ "_indexed" ≠ c ++ "_indexed" := by
            intro m2 hm2 he
            simp only [List.map_cons, List.nodup_cons] at hB
            exact hB.1 (he ▸ List.mem_map_of_mem (fun m3 => m3.1 ++ "_indexed") hm2)
          rw [getV_extendRow_of_ne ms _ _ hnot, getV_setCol_same]
        · have hkeys : ∀ m2 ∈ ms,
              getV (setCol r (c ++ "_indexed") (Val.num i)) m2.1 = getV r m2.1 :=
            fun m2 hm2 =>
              getV_setCol_other _ _ _ _
                (hA (c, v) (List.mem_cons_self _ _) m2 (List.mem_cons_of_mem _ hm2))
          have hK2' : knownAll ms (setCol r (c ++ "_indexed") (Val.num i)) = true := by
            rw [knownAll_congr ms _ r hkeys]
            exact hK2
          have hB2 : (ms.map (fun m2 => m2.1 ++ "_indexed")).Nodup := by
            simp only [List.map_cons, List.nodup_cons] at hB
            exact hB.2
          have hA2 : ∀ m2 ∈ ms, ∀ m3 ∈ ms, m2.1 ++ "_indexed" ≠ m3.1 :=
            fun m2 h2 m3 h3 =>
              hA m2 (List.mem_cons_of_mem _ h2) m3 (List.mem_cons_of_mem _ h3)
          obtain ⟨s2, i2, hgs2, hfi2, hget2⟩ :=
            ih (setCol r (c ++ "_indexed") (Val.num i)) hB2 hA2 hK2' m hmt
          rw [hkeys m hmt] at hgs2
          refine ⟨s2, i2, hgs2, hfi2, ?_⟩
          rw [hstep]
          exact hget2
    | null => simp only [hg] at hK1; exact Bool.noConfusion hK1
    | nan => simp only [hg] at hK1; exact Bool.noConfusion hK1
    | inf b => simp only [hg] at hK1; exact Bool.noConfusion hK1
    | num q => simp only [hg] at hK1; exact Bool.noConfusion hK1
    | vec xs => simp only [hg] at hK1; exact Bool.noConfusion hK1
    | scaledVec xs vs => simp only [hg] at hK1; exact Bool.noConfusion hK1

/-- C7 (confirmed).  With every stage run in the same pass (distinct
target columns, `_indexed` output names fresh), the chained skip-invalid
application drops a record exactly when some target column's value is
absent from that column's fitted vocabulary (or null), and keeps a record
whose values are all known, extending it with the correct index — the
position of the value in the fitted label list — for every target column.
Dropping is per-record: one unknown value removes the whole record from
the output of the chain, and a kept record appears with all index
columns. -/
theorem categoricalEncoder_skip_invalid
    (models : List (String × List String)) (rows : List Record)
    (hA : ∀ m ∈ models, ∀ m2 ∈ models, m.1 ++ "_indexed" ≠ m2.1)
    (hB : (models.map (fun m => m.1 ++ "_indexed")).Nodup) :
    applyModels models rows = rows.filterMap (encodeRow models) ∧
    (∀ r, knownAll models r = false → encodeRow models r = none) ∧
    (∀ r, knownAll models r = true → encodeRow models r = some (extendRow models r)) ∧
    (∀ r, knownAll models r = true → ∀ m ∈ models, ∃ s i,
      getV r m.1 = Val.str s ∧
      m.2.findIdx? (fun x => x == s) = some i ∧
      getV (extendRow models r) (m.1 ++ "_indexed") = Val.num i) ∧
    (∀ (vocab : List String) (s : String),
      ((vocab.findIdx? (fun x => x == s)).isSome = true) ↔ s ∈ vocab) := by
  refine ⟨applyModels_eq_filterMap models rows hA, ?_, ?_,
    fun r hk => extendRow_correct models r hB hA hk,
    fun v s => findIdx_isSome_iff_mem v s⟩
  · intro r hk
    simp [encodeRow, hk]
  · intro r hk
    simp [encodeRow, hk]

/-- Witness for `categoricalEncoder_skip_invalid` on two concrete stages. -/
theorem categoricalEncoder_skip_invalid_witness :
    applyModels [("Sex", ["Female", "Male"]), ("ChestScan", ["No", "Yes"])]
        [[("Sex", Val.str "Male"), ("ChestScan", Val.str "No")],
         [("Sex", Val.str "Unknown"), ("ChestScan", Val.str "Yes")]] =
      ([[("Sex", Val.str "Male"), ("ChestScan", Val.str "No")],
        [("Sex", Val.str "Unknown"), ("ChestScan", Val.str "Yes")]].filterMap
        (encodeRow [("Sex", ["Female", "Male"]), ("ChestScan", ["No", "Yes"])])) :=
  (categoricalEncoder_skip_invalid
    [("Sex", ["Female", "Male"]), ("ChestScan", ["No", "Yes"])]
    [[("Sex", Val.str "Male"), ("ChestScan", Val.str "No")],
     [("Sex", Val.str "Unknown"), ("ChestScan", Val.str "Yes")]]
    (by decide) (by decide)).1

/-! ### The orchestrator (`main`, lines 16–92)

`main` wraps the read-and-clean section (lines 27–60) in one
`try/except` that logs and returns, and the BigQuery write (lines 81–90)
in a second `try/except` that logs; the ML pipeline section — the
StringIndexer fits, the assembler, the scaler and the final `select`
(lines 62–79) — sits OUTSIDE both `try` blocks.  The orchestrator is
embedded as a function of the two effectful collaborators; a Python
exception escaping `main` is the `Except.error` result. -/

/-- Lines 31–32: `withColumn(c, F.col(c).cast("double"))`.  Referencing a
missing column is an analysis error (raised inside the first try block). -/
def castColumn (d : Dataset) (c : String) : Except String Dataset :=
  if d.schema.contains c
  then Except.ok ⟨d.schema, d.rows.map (fun r => setCol r c (castDouble (getV r c)))⟩
  else Except.error ("cast: column not found: " ++ c)

/-- Line 35: the BMI projection over the whole dataset. -/
def withBmi (d : Dataset) : Except String Dataset :=
  if d.schema.contains "WeightInKilograms" && d.schema.contains "HeightInMeters"
  then Except.ok ⟨schemaAdd d.schema "BMI_Calculated", d.rows.map deriveRow⟩
  else Except.error "BMI expression: column not found"

/-- Line 36: the null/NaN filter. -/
def filterBmi (d : Dataset) : Dataset :=
  ⟨d.schema, d.rows.filter (fun r => bmiValid (getV r "BMI_Calculated"))⟩

/-- Line 39: the label column. -/
def labelColumn (d : Dataset) : Except String Dataset :=
  if d.schema.contains "HadHeartAttack"
  then Except.ok ⟨schemaAdd d.schema "HadHeartAttack_Numeric", d.rows.map labelRow⟩
  else Except.error "column not found: HadHeartAttack"

/-- Line 55: `df.drop(*cols)` (missing names are ignored). -/
def dropColumns (d : Dataset) (cols : List String) : Dataset :=
  ⟨d.schema.filter (fun c => !cols.contains c),
   d.rows.map (fun r => r.filter (fun kv => !cols.contains kv.1))⟩

/-- The first try block's dataframe work (lines 28–55, with the read
itself supplied by the caller as `readRes`). -/
def cleanPhase (d : Dataset) : Except String Dataset := do
  let d1 ← castColumn d "WeightInKilograms"
  let d2 ← castColumn d1 "HeightInMeters"
  let d3 ← withBmi d2
  let d4 := filterBmi d3
  let d5 ← labelColumn d4
  Except.ok (dropColumns d5 droppedRawCols)

/-- `Pipeline.fit` over the indexer stages (lines 64, 72–73): each stage
is fit on the dataset as transformed by the previous stages, then
transforms it; a stage whose input column is missing raises (outside any
try block). -/
def fitModels : List String → Dataset → Except String (List (String × List String) × Dataset)
  | [], d => Except.ok ([], d)
  | c :: rest, d =>
    if d.schema.contains c then
      match fitModels rest ⟨schemaAdd d.schema (c ++ "_indexed"),
          indexerApply c (indexerFit d.rows c) d.rows⟩ with
      | Except.ok (ms, d2) => Except.ok ((c, indexerFit d.rows c) :: ms, d2)
      | Except.error e => Except.error e
    else Except.error ("StringIndexer: input column not found: " ++ c)

/-- A double cell as a finite rational, `none` for null/NaN/±∞/non-double
(the assembler's invalid values). -/
def toQnum : Val → Option ℚ
  | Val.num q => some q
  | _ => none

/-- VectorAssembler (line 68) at row level with `handleInvalid = "skip"`:
a row with an invalid (null or non-finite) value in any numerical column
is dropped; otherwise the assembled vector column is appended. -/
def assembleRow (r : Record) : Option Record :=
  match (numericalCols.map (fun c => getV r c)).mapM toQnum with
  | some qs => some (setCol r "num_features_unscaled" (Val.vec qs))
  | none => none

/-- VectorAssembler over the dataset: analysis error when an input column
is missing from the schema. -/
def assemblerTransform (d : Dataset) : Except String Dataset :=
  if numericalCols.all (fun c => d.schema.contains c)
  then Except.ok ⟨schemaAdd d.schema "num_features_unscaled", d.rows.filterMap assembleRow⟩
  else Except.error "VectorAssembler: input column not found"

/-- Component `i` of a row's assembled vector (0 outside the vector; only
applied to assembler output). -/
def componentAt (i : ℕ) (r : Record) : ℚ :=
  match getV r "num_features_unscaled" with
  | Val.vec xs => xs.getD i 0
  | _ => 0

/-- StandardScaler fit (lines 69, 73): the per-component sample variances
of the assembled vectors (the fitted std is their real square root). -/
def scalerFit (d : Dataset) : Except String (List ℚ) :=
  if d.schema.contains "num_features_unscaled"
  then Except.ok ((List.range numericalCols.length).map
    (fun i => sampleVariance (d.rows.map (componentAt i))))
  else Except.error "StandardScaler: input column not found"

/-- StandardScaler transform: appends the scaled-vector column (held
symbolically as raw components plus fitted variances, see `Val.scaledVec`
and `scaledEntry`; the column is dropped by the final projection). -/
def scalerTransform (vars : List ℚ) (d : Dataset) : Dataset :=
  ⟨schemaAdd d.schema "num_features_scaled",
   d.rows.map (fun r =>
     match getV r "num_features_unscaled" with
     | Val.vec xs => setCol r "num_features_scaled" (Val.scaledVec xs vars)
     | _ => r)⟩

/-- Schema after applying the fitted indexer models. -/
def applyModelsSchema (models : List (String × List String)) (schema : List String) : List String :=
  models.foldl (fun s m => schemaAdd s (m.1 ++ "_indexed")) schema

/-- Lines 62–79: pipeline fit, `model.transform(df)` on the pre-pipeline
dataframe, and the final projection.  None of this is inside a try
block. -/
def mlPhase (d : Dataset) : Except String Dataset := do
  let fm ← fitModels categoricalCols d
  let dAsm ← assemblerTransform fm.2
  let vars ← scalerFit dAsm
  let t1 : Dataset := ⟨applyModelsSchema fm.1 d.schema, applyModels fm.1 d.rows⟩
  let t2 ← assemblerTransform t1
  let t3 := scalerTransform vars t2
  selectCols t3 finalBqCols

/-- What `main` reports on its console before returning. -/
inductive Outcome where
  | success : Outcome
  | processingErrorLogged (msg : String) : Outcome
  | writeErrorLogged (msg : String) : Outcome
deriving DecidableEq

/-- `main` (lines 16–92): the first try/except catches read/clean errors
(log, stop, return); the ML phase runs outside any try; the write
try/except catches sink errors (log only).  An `Except.error` result is
an exception propagating out of `main` to the caller. -/
def mainRun (readRes : Except String Dataset)
    (writeRes : Dataset → Except String Unit) : Except String Outcome :=
  match readRes.bind cleanPhase with
  | Except.error e => Except.ok (Outcome.processingErrorLogged e)
  | Except.ok df =>
    match mlPhase df with
    | Except.error e => Except.error e
    | Except.ok finalDf =>
      match writeRes finalDf with
      | Except.error e => Except.ok (Outcome.writeErrorLogged e)
      | Except.ok _ => Except.ok Outcome.success

/-- A well-formed input whose schema lacks the categorical column "Sex":
the clean phase succeeds, so the first try block raises nothing, and the
first StringIndexer fit then raises an uncaught analysis error. -/
def exDfMissingSex : Dataset :=
  ⟨["WeightInKilograms", "HeightInMeters", "HadHeartAttack"],
   [[("WeightInKilograms", Val.num 70), ("HeightInMeters", Val.num 2),
     ("HadHeartAttack", Val.str "Yes")]]⟩

unseal Rat.mul Rat.inv Rat.add Rat.sub in
/-- C5 counterexample.  A failure during the encoders' fit phase is NOT
caught at the orchestrator boundary: on an input dataset missing the
"Sex" column the clean phase succeeds, the StringIndexer fit fails, and
`main` propagates the error to its caller instead of logging and
returning — contradicting the claim that every failure during the run is
caught and soft-reported. -/
theorem mainRun_uncaught_fit_error :
    mainRun (Except.ok exDfMissingSex) (fun _ => Except.ok ()) =
      Except.error "StringIndexer: input column not found: Sex" := by
  decide

/-- C5 (amended).  Failures in the read/clean section are caught and
converted to a logged message with a soft return, and write failures are
caught and logged likewise; but any failure in the ML fit/apply/projection
section (lines 62–79 sit outside both try blocks) propagates uncaught to
the caller. -/
theorem mainRun_error_handling (readRes : Except String Dataset)
    (writeRes : Dataset → Except String Unit) :
    (∀ e, readRes.bind cleanPhase = Except.error e →
      mainRun readRes writeRes = Except.ok (Outcome.processingErrorLogged e)) ∧
    (∀ df e, readRes.bind cleanPhase = Except.ok df → mlPhase df = Except.error e →
      mainRun readRes writeRes = Except.error e) ∧
    (∀ df out e, readRes.bind cleanPhase = Except.ok df → mlPhase df = Except.ok out →
      writeRes out = Except.error e →
      mainRun readRes writeRes = Except.ok (Outcome.writeErrorLogged e)) ∧
    (∀ df out, readRes.bind cleanPhase = Except.ok df → mlPhase df = Except.ok out →
      writeRes out = Except.ok () →
      mainRun readRes writeRes = Except.ok Outcome.success) := by
  refine ⟨?_, ?_, ?_, ?_⟩
  · intro e h
    simp [mainRun, h]
  · intro df e h1 h2
    simp [mainRun, h1, h2]
  · intro df out e h1 h2 h3
    simp [mainRun, h1, h2, h3]
  · intro df out h1 h2 h3
    simp [mainRun, h1, h2, h3]

/-- Witness for `mainRun_error_handling`: a failing read is logged and
softly returned. -/
theorem mainRun_error_handling_witness :
    mainRun (Except.error "boom") (fun _ => Except.ok ()) =
      Except.ok (Outcome.processingErrorLogged "boom") :=
  (mainRun_error_handling (Except.error "boom") (fun _ => Except.ok ())).1 "boom" rfl

/-! ### Determinism (claim C8) -/

/-- The full transform pipeline on an already-read dataset. -/
def pipelineRun (d : Dataset) : Except String Dataset :=
  (cleanPhase d).bind mlPhase

/-- C8 (confirmed).  The pipeline is a pure function of its input: fitting
the categorical encoders on equal datasets yields identical vocabularies
and index assignments, and running the whole pipeline on equal static
inputs yields identical results — in particular identical output column
sets and identical row counts.  No step of the embedded code draws on any
source of nondeterminism (the spec's caveat about externally inferred
types lives in the external reader, outside this pipeline). -/
theorem pipeline_deterministic (d1 d2 : Dataset) (h : d1 = d2) :
    fitModels categoricalCols d1 = fitModels categoricalCols d2 ∧
    pipelineRun d1 = pipelineRun d2 ∧
    (pipelineRun d1).map (fun o => o.schema) = (pipelineRun d2).map (fun o => o.schema) ∧
    (pipelineRun d1).map (fun o => o.rows.length) =
      (pipelineRun d2).map (fun o => o.rows.length) := by
  subst h
  exact ⟨rfl, rfl, rfl, rfl⟩

/-- Witness for `pipeline_deterministic` at a concrete dataset. -/
theorem pipeline_deterministic_witness :
    fitModels categoricalCols exDfMissingSex = fitModels categoricalCols exDfMissingSex ∧
    pipelineRun exDfMissingSex = pipelineRun exDfMissingSex ∧
    (pipelineRun exDfMissingSex).map (fun o => o.schema) =
      (pipelineRun exDfMissingSex).map (fun o => o.schema) ∧
    (pipelineRun exDfMissingSex).map (fun o => o.rows.length) =
      (pipelineRun exDfMissingSex).map (fun o => o.rows.length) :=
  pipeline_deterministic exDfMissingSex exDfMissingSex rfl

end HeartPipeline
